import Mathlib

/-!
Shallow embedding of the Airbyte python CDK source orchestrator
(`base_python/sdk/abstract_source.py`) together with the Slack connector
incremental streams (`source_slack/source.py`).

Modelling conventions:
* Python dicts are association lists with first-match lookup and
  overwrite-or-append insertion.
* Python floats (cursor timestamps) are modelled as integer epoch
  seconds: the code only compares them and takes maxima, so the integer
  model preserves the behaviour exactly.
* Python generators are modelled as lists; a generator that raises an
  exception after yielding a prefix is modelled as the pair of that prefix
  and an optional error value (the orchestrator re-raises errors, so the
  error value is threaded through every function that enumerates).
* Logging calls that carry no claim-relevant information (pure progress
  notes inside `_read_incremental` and `_checkpoint_state`) are omitted;
  the log lines of `read` and `_read_stream` are modelled explicitly.
-/

namespace Airbyte

/-- Cursor / timestamp values (`float` epoch timestamps in the python
code). They are only ever compared and folded with `max`, so they are
modelled as integers (epoch seconds), which preserves the order-theoretic
behaviour exactly and keeps every definition kernel-computable. -/
abbrev Ts := ℤ

/-- Python dict lookup (`d[k]` / `d.get(k)`): first matching key. -/
def dget {κ α : Type} [BEq κ] (m : List (κ × α)) (k : κ) : Option α :=
  match m.find? (fun p => p.1 == k) with
  | some p => some p.2
  | none => none

/-- Python `d.get(k, default)`. -/
def dgetD {κ α : Type} [BEq κ] (m : List (κ × α)) (k : κ) (d : α) : α :=
  (dget m k).getD d

/-- Python dict assignment `d[k] = v`: overwrite the existing binding in
place, otherwise append the new binding. -/
def dset {κ α : Type} [BEq κ] (m : List (κ × α)) (k : κ) (v : α) : List (κ × α) :=
  match m with
  | [] => [(k, v)]
  | (k0, v0) :: rest =>
    if k0 == k then (k0, v) :: rest else (k0, v0) :: dset rest k v

/-- A raw record, a mapping field to value (only numeric fields are ever
consulted by the code under study, through the cursor field `ts`). -/
abbrev RecordData := List (String × Ts)

/-- The cursor value of a record: `float(record["ts"])` in
`IncrementalMessageStream.get_updated_state` (records of the streams under
study always carry the field). -/
def rts (r : RecordData) : Ts := dgetD r "ts" 0

/-- Per-stream state blob, e.g. `{"ts": 1.5}`. -/
abbrev StreamState := List (String × Ts)

/-- Connector state: stream name to per-stream state. -/
abbrev ConnectorState := List (String × StreamState)

/-- Stream slice, e.g. `{"oldest": 0.0, "latest": 86400.0}`. -/
abbrev Slice := List (String × Ts)

/-- `airbyte_protocol.SyncMode`. -/
inductive SyncMode where
  | full_refresh
  | incremental
deriving DecidableEq, Repr

/-- `AirbyteMessage`, restricted to the two kinds produced by the engine:
RECORD (stream name and data) and STATE (full connector state map). -/
inductive Message where
  | record (stream : String) (data : RecordData)
  | state (data : ConnectorState)
deriving DecidableEq, Repr

/-- Message type test mirroring `record.type == MessageType.RECORD`. -/
def Message.isRecord : Message → Bool
  | .record _ _ => true
  | .state _ => false

/-- Message type test for STATE messages. -/
def Message.isState : Message → Bool
  | .record _ _ => false
  | .state _ => true

/-- Opaque exception values. -/
abbrev Err := String

/-- The `Stream` interface as used by the orchestrator.

Modelled from the spec: `base_python/sdk/streams/core.py` is not among the
reviewed sources, only its caller (`abstract_source.py`) and concrete
subclasses are. The fields are exactly the operations the orchestrator
invokes: `supports_incremental`, `state_checkpoint_interval`,
`stream_slices`, `read_records` and `get_updated_state`. The two
enumerating operations return the list of yielded elements together with
an optional exception raised after that prefix. -/
structure StreamInst where
  name : String
  supports_incremental : Bool
  state_checkpoint_interval : Option Nat
  stream_slices : SyncMode → List String → StreamState → List Slice × Option Err
  read_records : SyncMode → Slice → StreamState → List String → List RecordData × Option Err
  get_updated_state : StreamState → RecordData → StreamState

/-- `ConfiguredAirbyteStream`, restricted to the fields the orchestrator
reads: the configured stream name, sync mode and cursor field. -/
structure ConfiguredStream where
  stream_name : String
  sync_mode : SyncMode
  cursor_field : List String

/-- `AbstractSource._checkpoint_state`: set the per-stream entry of the
connector state map in place and wrap the whole map in a STATE message. -/
def checkpoint_state (stream_name : String) (stream_state : StreamState)
    (connector_state : ConnectorState) : ConnectorState × Message :=
  let cs := dset connector_state stream_name stream_state
  (cs, Message.state cs)

/-- Truthiness test `if checkpoint_interval and record_counter % checkpoint_interval == 0`:
`None` and `0` are falsy in python. -/
def checkpointDue (interval : Option Nat) (counter : Nat) : Bool :=
  match interval with
  | none => false
  | some k => k != 0 && counter % k == 0

/-- The record loop of `AbstractSource._read_incremental` (lines 154-159):
emit each record, fold it into the stream state, and emit an intermediate
checkpoint whenever the per-slice counter hits the interval. Returns the
emitted messages, the final stream state and the final connector state. -/
def processRecords (stream : StreamInst) (stream_name : String) (interval : Option Nat) :
    List RecordData → Nat → StreamState → ConnectorState →
    List Message × StreamState × ConnectorState
  | [], _, ss, cs => ([], ss, cs)
  | r :: rest, counter, ss, cs =>
    let ss1 := stream.get_updated_state ss r
    if checkpointDue interval (counter + 1) then
      let cm := checkpoint_state stream_name ss1 cs
      let step := processRecords stream stream_name interval rest (counter + 1) ss1 cm.1
      (Message.record stream_name r :: cm.2 :: step.1, step.2.1, step.2.2)
    else
      let step := processRecords stream stream_name interval rest (counter + 1) ss1 cs
      (Message.record stream_name r :: step.1, step.2.1, step.2.2)

/-- The slice loop of `AbstractSource._read_incremental` (lines 146-161):
for each slice read its records with the current stream state, run the
record loop with the per-slice counter restarted at zero, and emit the
unconditional trailing checkpoint. An exception raised by record
enumeration propagates before the trailing checkpoint and stops the loop. -/
def processSlices (stream : StreamInst) (stream_name : String) (interval : Option Nat)
    (cursor_field : List String) :
    List Slice → StreamState → ConnectorState →
    List Message × StreamState × ConnectorState × Option Err
  | [], ss, cs => ([], ss, cs, none)
  | sl :: rest, ss, cs =>
    let rr := stream.read_records SyncMode.incremental sl ss cursor_field
    let step := processRecords stream stream_name interval rr.1 0 ss cs
    match rr.2 with
    | some e => (step.1, step.2.1, step.2.2, some e)
    | none =>
      let cm := checkpoint_state stream_name step.2.1 step.2.2
      let tail := processSlices stream stream_name interval cursor_field rest step.2.1 cm.1
      (step.1 ++ cm.2 :: tail.1, tail.2)

/-- `AbstractSource._read_incremental`: seed the stream state from the
connector state map, enumerate slices from it, and run the slice loop.
An exception raised by slice enumeration itself surfaces only after the
enumerated slices have been processed without error. -/
def read_incremental (stream : StreamInst) (configured : ConfiguredStream)
    (connector_state : ConnectorState) : List Message × ConnectorState × Option Err :=
  let stream_name := configured.stream_name
  let stream_state := dgetD connector_state stream_name []
  let interval := stream.state_checkpoint_interval
  let sl := stream.stream_slices SyncMode.incremental configured.cursor_field stream_state
  let res := processSlices stream stream_name interval configured.cursor_field sl.1 stream_state connector_state
  (res.1, res.2.2.1, match res.2.2.2 with | some e => some e | none => sl.2)

/-- The slice loop of `AbstractSource._read_full_refresh`: enumerate the
records of each slice with no state context and wrap each as a RECORD
message. -/
def fullRefreshSlices (stream : StreamInst) (stream_name : String) (cursor_field : List String) :
    List Slice → List Message × Option Err
  | [] => ([], none)
  | sl :: rest =>
    let rr := stream.read_records SyncMode.full_refresh sl [] cursor_field
    let msgs := rr.1.map (Message.record stream_name)
    match rr.2 with
    | some e => (msgs, some e)
    | none =>
      let tail := fullRefreshSlices stream stream_name cursor_field rest
      (msgs ++ tail.1, tail.2)

/-- `AbstractSource._read_full_refresh`. -/
def read_full_refresh (stream : StreamInst) (configured : ConfiguredStream) :
    List Message × Option Err :=
  let sl := stream.stream_slices SyncMode.full_refresh configured.cursor_field []
  let res := fullRefreshSlices stream configured.stream_name configured.cursor_field sl.1
  (res.1, match res.2 with | some e => some e | none => sl.2)

/-- Line 114 of `abstract_source.py`:
`use_incremental = configured_stream.sync_mode == SyncMode.incremental and stream_instance.supports_incremental`. -/
def useIncremental (stream : StreamInst) (configured : ConfiguredStream) : Bool :=
  configured.sync_mode == SyncMode.incremental && stream.supports_incremental

/-- `AbstractSource._read_stream`: pick the incremental or full-refresh
path, count the RECORD messages pulled through, and log the stream header
and (on successful completion only) the record count. -/
def read_stream (stream : StreamInst) (configured : ConfiguredStream)
    (connector_state : ConnectorState) :
    List Message × List String × ConnectorState × Option Err :=
  let res :=
    if useIncremental stream configured then
      read_incremental stream configured connector_state
    else
      let fr := read_full_refresh stream configured
      (fr.1, connector_state, fr.2)
  let record_counter := (res.1.filter Message.isRecord).length
  let logs :=
    ["Syncing stream: " ++ configured.stream_name ++ " "] ++
      (match res.2.2 with
       | none => ["Read " ++ toString record_counter ++ " records from " ++
                    configured.stream_name ++ " stream"]
       | some _ => [])
  (res.1, logs, res.2.1, res.2.2)

/-- The per-stream loop of `AbstractSource.read` (lines 94-104): resolve
each configured stream by name (a missing name raises a `KeyError`), read
it, and on any exception log the failure line — which interpolates
`self.name`, the SOURCE name — and re-raise, aborting the run. -/
def readStreams (source_name : String) (instances : List (String × StreamInst)) :
    List ConfiguredStream → ConnectorState → List Message × List String × Option Err
  | [], _ => ([], ["Finished syncing " ++ source_name], none)
  | c :: rest, cs =>
    match dget instances c.stream_name with
    | none =>
      ([], ["Encountered an exception while reading stream " ++ source_name],
        some ("KeyError: " ++ c.stream_name))
    | some stream =>
      let res := read_stream stream c cs
      match res.2.2.2 with
      | some e =>
        (res.1, res.2.1 ++ ["Encountered an exception while reading stream " ++ source_name], some e)
      | none =>
        let tail := readStreams source_name instances rest res.2.2.1
        (res.1 ++ tail.1, res.2.1 ++ tail.2.1, tail.2.2)

/-- `AbstractSource.read`: deep-copy the seed state (value semantics here;
the reference semantics of the copy are studied in the heap model below),
build the name-to-instance map, and run every configured stream in catalog
order. Returns messages, log lines and the propagated exception, if any. -/
def read (source_name : String) (streams : List StreamInst)
    (catalog : List ConfiguredStream) (state : Option ConnectorState) :
    List Message × List String × Option Err :=
  let connector_state := state.getD []
  let instances := streams.foldl (fun m s => dset m s.name s) []
  let res := readStreams source_name instances catalog connector_state
  (res.1, ("Starting syncing " ++ source_name) :: res.2.1, res.2.2)

/-- The `while start_date <= now` loop of `chunk_date_range`, written with
a structural fuel argument so that it evaluates inside the kernel. The
fuel never runs out when it is at least `now + 86400 - start_date`:
every iteration advances `start_date` by a whole day (86400 seconds), so
that bound falls by 86400 per iteration while the fuel falls by 1 (see
`chunk_date_range_unfold`, which recovers the loop equation exactly). -/
def chunk_go (now : Ts) (interval : Ts) : Ts → Nat → List Slice
  | _, 0 => []
  | start_date, fuel + 1 =>
    if start_date ≤ now then
      [("oldest", start_date), ("latest", start_date + interval * 86400)] ::
        chunk_go now interval (start_date + 86400) fuel
    else []

/-- `chunk_date_range` (lines 129-142): one slice per day from the start
date up to `now` (inclusive); each slice spans `interval` days. Dates are
modelled as epoch-second timestamps, one day being 86400 seconds. -/
def chunk_date_range (start_date now : Ts) (interval : Ts := 1) : List Slice :=
  chunk_go now interval start_date (now + 86400 - start_date).toNat

/-- `IncrementalMessageStream.get_updated_state` (lines 158-161): fold the
maximum of the latest record cursor and the tracked value (default 0) into
the `"ts"` entry of the stream state. -/
def slack_get_updated_state (current_stream_state : StreamState)
    (latest_record : RecordData) : StreamState :=
  dset current_stream_state "ts" (max (rts latest_record) (dgetD current_stream_state "ts" 0))

/-- `ChannelMessages.stream_slices` (lines 168-171): chunk from
`stream_state.get("start_ts", default_start_date.timestamp())` up to now.
Note the key read here is `"start_ts"`, not the `"ts"` key written by
`get_updated_state`. -/
def channelMessages_stream_slices (default_start_ts now : Ts)
    (stream_state : StreamState) : List Slice :=
  chunk_date_range (dgetD stream_state "start_ts" default_start_ts) now

/-- Modelled from the spec: `HttpStream.read_records` is not among the
reviewed sources. Per the spec, `readRecords` "produces a lazy sequence of
raw records scoped to the given slice"; for the message streams the slice
is a `{"oldest", "latest"}` window, so the model returns the server-side
records whose cursor lies in that window. `server` is the full server-side
record list; the python request parameters include the slice bounds but
never the stream state. -/
def slack_read_records (server : List RecordData) (sl : Slice) : List RecordData :=
  server.filter (fun r => decide (dgetD sl "oldest" 0 ≤ rts r ∧ rts r ≤ dgetD sl "latest" 0))

/-- The `ChannelMessages` stream instance as the orchestrator sees it:
incremental support and the default checkpoint interval come from the
`Stream` base class (modelled from the spec: incremental streams declare
incremental support; the checkpoint interval is absent by default). -/
def mkChannelMessages (default_start_ts now : Ts) (server : List RecordData)
    (interval : Option Nat := none) : StreamInst where
  name := "channel_messages"
  supports_incremental := true
  state_checkpoint_interval := interval
  stream_slices := fun _ _ ss => (channelMessages_stream_slices default_start_ts now ss, none)
  read_records := fun _ sl _ _ => (slack_read_records server sl, none)
  get_updated_state := slack_get_updated_state

/-- Number of STATE messages in an output trace. -/
def countStates (msgs : List Message) : Nat := (msgs.filter Message.isState).length

/-- Tracked cursor value of a stream state: `stream_state.get("ts", 0)`,
the value `get_updated_state` reads and writes. -/
def stateTs (ss : StreamState) : Ts := dgetD ss "ts" 0

/-- Cursor value recorded for stream `name` inside the connector state map
carried by a STATE message. -/
def entryTs (name : String) (cs : ConnectorState) : Ts := stateTs (dgetD cs name [])

/-- A minimal in-memory stream used to instantiate the generic theorems on
concrete inputs: one trivial slice, a fixed record list, the Slack state
update rule. -/
def constStream (name : String := "s") (records : List RecordData := [])
    (interval : Option Nat := none) : StreamInst where
  name := name
  supports_incremental := true
  state_checkpoint_interval := interval
  stream_slices := fun _ _ _ => ([[]], none)
  read_records := fun _ _ _ _ => (records, none)
  get_updated_state := slack_get_updated_state

/-- Trace invariant for a single incremental stream: a nondecreasing
tracked-cursor timeline runs through the emitted messages; each record is
bounded by the timeline value right after it and each STATE message
carries the timeline value at its emission. -/
def Timeline (name : String) : Ts → List Message → Ts → Prop
  | v, [], vf => v ≤ vf
  | v, Message.record _ r :: ms, vf => ∃ v1, v ≤ v1 ∧ rts r ≤ v1 ∧ Timeline name v1 ms vf
  | v, Message.state d :: ms, vf => v ≤ entryTs name d ∧ Timeline name (entryTs name d) ms vf

/-- `keysSub a b`: every stream that has an entry in `a` has one in `b`. -/
def keysSub (a b : ConnectorState) : Prop :=
  ∀ k, (dget a k).isSome → (dget b k).isSome

/-- The connector-state snapshots carried by the STATE messages of a trace
grow monotonically (in key set) from the map at the start of the trace to
the map at its end. -/
def KeyChain : ConnectorState → List Message → ConnectorState → Prop
  | cs, [], cs1 => keysSub cs cs1
  | cs, Message.record _ _ :: ms, cs1 => KeyChain cs ms cs1
  | cs, Message.state d :: ms, cs1 => keysSub cs d ∧ KeyChain d ms cs1

/-- One step of the cursor fold performed by `get_updated_state`. -/
def cursorFold (a : Ts) (r : RecordData) : Ts := max (rts r) a

/-- The maximum of the cursor values of a nonempty record list (0 for the
empty list, which the claims never use). -/
def cursorMax : List RecordData → Ts
  | [] => 0
  | r :: rest => rest.foldl cursorFold (rts r)

/-- A stream whose record enumeration raises after yielding `records`. -/
def errStream (name : String) (records : List RecordData) (e : Err) : StreamInst where
  name := name
  supports_incremental := true
  state_checkpoint_interval := none
  stream_slices := fun _ _ _ => ([[]], none)
  read_records := fun _ _ _ _ => (records, some e)
  get_updated_state := slack_get_updated_state

/-- Two-level heap of python dict objects for the connector state. -/
structure Heap where
  outer : List (Nat × List (String × Nat))
  inner : List (Nat × StreamState)
  next : Nat

/-- Dereference an outer (connector-state) dict. -/
def readOuter (h : Heap) (a : Nat) : List (String × Nat) := dgetD h.outer a []

/-- Dereference an inner (per-stream state) dict. -/
def readInner (h : Heap) (a : Nat) : StreamState := dgetD h.inner a []

/-- In-place write to an outer dict object. -/
def writeOuter (h : Heap) (a : Nat) (v : List (String × Nat)) : Heap :=
  { h with outer := dset h.outer a v }

/-- In-place write to an inner dict object. -/
def writeInner (h : Heap) (a : Nat) (v : StreamState) : Heap :=
  { h with inner := dset h.inner a v }

/-- Allocate a fresh outer dict object. -/
def allocOuter (h : Heap) (v : List (String × Nat)) : Heap × Nat :=
  ({ outer := dset h.outer h.next v, inner := h.inner, next := h.next + 1 }, h.next)

/-- Allocate a fresh inner dict object. -/
def allocInner (h : Heap) (v : StreamState) : Heap × Nat :=
  ({ outer := h.outer, inner := dset h.inner h.next v, next := h.next + 1 }, h.next)

/-- One step of the deep copy: allocate a fresh copy of the inner dict
behind one entry and extend the copied entry list. -/
def copyFold (h : Heap) (acc : Heap × List (String × Nat)) (kv : String × Nat) :
    Heap × List (String × Nat) :=
  let al := allocInner acc.1 (readInner h kv.2)
  (al.1, acc.2 ++ [(kv.1, al.2)])

/-- `copy.deepcopy(state or {})` (line 89 of `abstract_source.py`): a
fresh outer dict whose entries point at fresh copies of the inner dicts;
`None` copies to an empty dict. -/
def deepcopyOuter (h : Heap) (a : Option Nat) : Heap × Nat :=
  match a with
  | none => allocOuter h []
  | some a0 =>
    let step := (readOuter h a0).foldl (copyFold h) (h, [])
    allocOuter step.1 step.2

/-- `stream_state = connector_state.get(stream_name, {})` (line 138): the
existing inner dict reference, or a fresh empty dict (not inserted). -/
def getStreamStateHeap (h : Heap) (csA : Nat) (name : String) : Heap × Nat :=
  match dget (readOuter h csA) name with
  | some ia => (h, ia)
  | none => allocInner h []

/-- Heap semantics of `IncrementalMessageStream.get_updated_state`:
`current_stream_state = current_stream_state or {}` rebinds to a FRESH
dict when the current dict is empty (an empty python dict is falsy),
then `current_stream_state["ts"] = max(...)` writes in place. -/
def slackUpdateHeap (h : Heap) (ssA : Nat) (r : RecordData) : Heap × Nat :=
  let cur := readInner h ssA
  if cur.isEmpty then
    let al := allocInner h []
    (writeInner al.1 al.2 (dset [] "ts" (max (rts r) (dgetD ([] : StreamState) "ts" 0))), al.2)
  else
    (writeInner h ssA (dset cur "ts" (max (rts r) (dgetD cur "ts" 0))), ssA)

/-- The full connector-state value reachable from an outer address, as
snapshotted into a STATE message. -/
def snapshotCS (h : Heap) (csA : Nat) : ConnectorState :=
  (readOuter h csA).map (fun kv => (kv.1, readInner h kv.2))

/-- Heap semantics of `_checkpoint_state`:
`connector_state[stream_name] = stream_state` stores the inner REFERENCE
into the outer dict, then the message wraps the reachable value. -/
def checkpointHeap (h : Heap) (csA : Nat) (name : String) (ssA : Nat) : Heap × Message :=
  let h1 := writeOuter h csA (dset (readOuter h csA) name ssA)
  (h1, Message.state (snapshotCS h1 csA))

/-- Heap version of the record loop of `_read_incremental`. Returns the
messages, the final heap and the (possibly rebound) stream-state address. -/
def processRecordsHeap (name : String) (interval : Option Nat) :
    List RecordData → Nat → Heap → Nat → Nat → List Message × Heap × Nat
  | [], _, h, ssA, _ => ([], h, ssA)
  | r :: rest, counter, h, ssA, csA =>
    let up := slackUpdateHeap h ssA r
    if checkpointDue interval (counter + 1) then
      let ck := checkpointHeap up.1 csA name up.2
      let step := processRecordsHeap name interval rest (counter + 1) ck.1 up.2 csA
      (Message.record name r :: ck.2 :: step.1, step.2)
    else
      let step := processRecordsHeap name interval rest (counter + 1) up.1 up.2 csA
      (Message.record name r :: step.1, step.2)

/-- Heap version of the slice loop of `_read_incremental`. -/
def processSlicesHeap (stream : StreamInst) (name : String) (interval : Option Nat)
    (cf : List String) :
    List Slice → Heap → Nat → Nat → List Message × Heap × Nat × Option Err
  | [], h, ssA, _ => ([], h, ssA, none)
  | sl :: rest, h, ssA, csA =>
    let rr := stream.read_records SyncMode.incremental sl (readInner h ssA) cf
    let step := processRecordsHeap name interval rr.1 0 h ssA csA
    match rr.2 with
    | some e => (step.1, step.2.1, step.2.2, some e)
    | none =>
      let ck := checkpointHeap step.2.1 csA name step.2.2
      let tail := processSlicesHeap stream name interval cf rest ck.1 step.2.2 csA
      (step.1 ++ ck.2 :: tail.1, tail.2)

/-- Heap version of `_read_incremental`. -/
def readIncrementalHeap (stream : StreamInst) (configured : ConfiguredStream)
    (h : Heap) (csA : Nat) : List Message × Heap × Option Err :=
  let gs := getStreamStateHeap h csA configured.stream_name
  let sl := stream.stream_slices SyncMode.incremental configured.cursor_field
    (readInner gs.1 gs.2)
  let res := processSlicesHeap stream configured.stream_name
    stream.state_checkpoint_interval configured.cursor_field sl.1 gs.1 gs.2 csA
  (res.1, res.2.1, match res.2.2.2 with | some e => some e | none => sl.2)

/-- Heap version of `_read_stream`: the full-refresh path never touches
the connector state. -/
def readStreamHeap (stream : StreamInst) (configured : ConfiguredStream)
    (h : Heap) (csA : Nat) : List Message × Heap × Option Err :=
  if useIncremental stream configured then
    readIncrementalHeap stream configured h csA
  else
    let fr := read_full_refresh stream configured
    (fr.1, h, fr.2)

/-- Heap version of the per-stream loop of `read`. -/
def readStreamsHeap (instances : List (String × StreamInst)) :
    List ConfiguredStream → Heap → Nat → List Message × Heap × Option Err
  | [], h, _ => ([], h, none)
  | c :: rest, h, csA =>
    match dget instances c.stream_name with
    | none => ([], h, some ("KeyError: " ++ c.stream_name))
    | some stream =>
      let res := readStreamHeap stream c h csA
      match res.2.2 with
      | some e => (res.1, res.2.1, some e)
      | none =>
        let tail := readStreamsHeap instances rest res.2.1 csA
        (res.1 ++ tail.1, tail.2)

/-- Heap version of `read`: deep-copy the caller state, then run every
configured stream against the copy. -/
def readHeap (streams : List StreamInst) (catalog : List ConfiguredStream)
    (h : Heap) (stateAddr : Option Nat) : List Message × Heap :=
  let dc := deepcopyOuter h stateAddr
  let instances := streams.foldl (fun m s => dset m s.name s) []
  let res := readStreamsHeap instances catalog dc.1 dc.2
  (res.1, res.2.1)

/-- `FrameGE N h h2`: `h2` differs from `h` only at addresses ≥ `N` (and
its allocation pointer stayed ≥ `N`). -/
def FrameGE (N : Nat) (h h2 : Heap) : Prop :=
  N ≤ h2.next
  ∧ (∀ a, a < N → dget h2.outer a = dget h.outer a)
  ∧ (∀ a, a < N → dget h2.inner a = dget h.inner a)

/-- `HeapOK N h csA`: the connector-state dict lives at an address ≥ `N`,
all its entries point at addresses ≥ `N`, and the allocator is past `N`. -/
def HeapOK (N : Nat) (h : Heap) (csA : Nat) : Prop :=
  N ≤ h.next ∧ N ≤ csA ∧ ∀ kv ∈ readOuter h csA, N ≤ kv.2

/-! ## Theorems -/

/-- The fuel bound of `chunk_date_range` after one loop iteration. -/
theorem chunk_bound_step (start_date now : ℤ) (h : start_date ≤ now) :
    (now + 86400 - (start_date + 86400)).toNat + 1 ≤ (now + 86400 - start_date).toNat := by
  omega

/-- `chunk_go` does not depend on the fuel, as long as the fuel is at
least the bound used by `chunk_date_range`. -/
theorem chunk_go_congr (now : ℤ) (interval : Ts) :
    ∀ (f1 f2 : Nat) (start_date : ℤ),
      (now + 86400 - start_date).toNat ≤ f1 →
      (now + 86400 - start_date).toNat ≤ f2 →
      chunk_go now interval start_date f1 = chunk_go now interval start_date f2 := by
  intro f1
  induction f1 with
  | zero =>
    intro f2 start_date h1 h2
    have hgt : ¬ start_date ≤ now := by omega
    cases f2 with
    | zero => rfl
    | succ f2a => simp [chunk_go, hgt]
  | succ f1a ih =>
    intro f2 start_date h1 h2
    by_cases hle : start_date ≤ now
    · have hb := chunk_bound_step start_date now hle
      cases f2 with
      | zero => omega
      | succ f2a =>
        simp only [chunk_go, hle, if_true]
        rw [ih f2a (start_date + 86400) (by omega) (by omega)]
    · cases f2 with
      | zero =>
        simp [chunk_go, hle]
      | succ f2a =>
        simp [chunk_go, hle]

/-- `chunk_date_range` satisfies the defining equation of the python
`while start_date <= now` loop. -/
theorem chunk_date_range_unfold (start_date now : ℤ) (interval : Ts) :
    chunk_date_range start_date now interval =
      if start_date ≤ now then
        [("oldest", start_date), ("latest", start_date + interval * 86400)] ::
          chunk_date_range (start_date + 86400) now interval
      else [] := by
  by_cases hle : start_date ≤ now
  · have hb := chunk_bound_step start_date now hle
    obtain ⟨f, hf⟩ : ∃ f, (now + 86400 - start_date).toNat = f + 1 := by
      refine ⟨(now + 86400 - start_date).toNat - 1, ?_⟩
      omega
    simp only [chunk_date_range, hf, chunk_go, hle, if_true]
    rw [chunk_go_congr now interval f (now + 86400 - (start_date + 86400)).toNat
      (start_date + 86400) (by omega) (by omega)]
  · simp only [chunk_date_range, hle, if_false]
    cases hN : (now + 86400 - start_date).toNat with
    | zero => rfl
    | succ f => simp [chunk_go, hle]

/-! ### Basic dictionary lemmas -/
theorem dget_dset_self {κ α : Type} [BEq κ] [LawfulBEq κ] (m : List (κ × α)) (k : κ) (v : α) :
    dget (dset m k v) k = some v := by
  induction m with
  | nil => simp [dget, dset, List.find?]
  | cons p rest ih =>
    by_cases h : p.1 = k
    · simp [dget, dset, h, List.find?]
    · have hb : (p.1 == k) = false := by simp [h]
      simp only [dset]
      rw [show (p.1 == k) = false from hb]
      simp only [Bool.false_eq_true, if_false, dget, List.find?, hb]
      exact ih

theorem dget_dset_ne {κ α : Type} [BEq κ] [LawfulBEq κ] (m : List (κ × α)) (k k2 : κ) (v : α)
    (h : k ≠ k2) : dget (dset m k v) k2 = dget m k2 := by
  induction m with
  | nil =>
    have hb : (k == k2) = false := by simp [h]
    simp [dget, dset, List.find?, hb]
  | cons p rest ih =>
    by_cases hp : p.1 = k
    · have hb : (k == k2) = false := by simp [h]
      simp [dget, dset, hp, List.find?, hb]
    · have hb : (p.1 == k) = false := by simp [hp]
      simp only [dset]
      rw [show (p.1 == k) = false from hb]
      simp only [Bool.false_eq_true, if_false, dget, List.find?]
      cases hpk : p.1 == k2 with
      | true => simp
      | false => exact ih

/-! ### C7: full-refresh purity -/
theorem fullRefreshSlices_all_records (stream : StreamInst) (name : String)
    (cf : List String) : ∀ sls, ((fullRefreshSlices stream name cf sls).1.all Message.isRecord) = true := by
  intro sls
  induction sls with
  | nil => rfl
  | cons sl rest ih =>
    simp only [fullRefreshSlices]
    cases h : (stream.read_records SyncMode.full_refresh sl [] cf).2 with
    | some e =>
      simp only [h, List.all_eq_true]
      intro m hm
      obtain ⟨r, _, rfl⟩ := List.mem_map.mp hm
      rfl
    | none =>
      simp only [h, List.all_eq_true, List.mem_append]
      rintro m (hm | hm)
      · obtain ⟨r, _, rfl⟩ := List.mem_map.mp hm
        rfl
      · exact List.all_eq_true.mp ih m hm

/-- Claim C7: a stream synced on the full-refresh path emits only RECORD
messages and zero STATE messages, for every stream instance, configured
stream, and hence every sequence of slices and records it produces. -/
theorem C7_full_refresh_purity (stream : StreamInst) (configured : ConfiguredStream) :
    ((read_full_refresh stream configured).1.all Message.isRecord) = true
    ∧ countStates (read_full_refresh stream configured).1 = 0 := by
  have hall := fullRefreshSlices_all_records stream configured.stream_name configured.cursor_field
    (stream.stream_slices SyncMode.full_refresh configured.cursor_field []).1
  constructor
  · exact hall
  · simp only [countStates, read_full_refresh, List.length_eq_zero, List.filter_eq_nil_iff]
    intro m hm
    have := List.all_eq_true.mp hall m hm
    cases m with
    | record s r => simp [Message.isState]
    | state d => simp [Message.isRecord] at this

/-- Claim C8: the orchestrator takes the incremental path if and only if
the configured sync mode is incremental AND the stream declares
incremental support; in every other case it takes the full-refresh path. -/
theorem C8_sync_mode_decision (stream : StreamInst) (configured : ConfiguredStream) :
    (useIncremental stream configured = true ↔
      (configured.sync_mode = SyncMode.incremental ∧ stream.supports_incremental = true))
    ∧ ∀ cs, (read_stream stream configured cs).1 =
        if useIncremental stream configured then (read_incremental stream configured cs).1
        else (read_full_refresh stream configured).1 := by
  constructor
  · simp [useIncremental, Bool.and_eq_true, beq_iff_eq]
  · intro cs
    by_cases h : useIncremental stream configured = true
    · simp [read_stream, h]
    · simp only [Bool.not_eq_true] at h
      simp [read_stream, h]

/-! ### C3: checkpoint cadence -/
theorem countStates_cons_record (s : String) (r : RecordData) (msgs : List Message) :
    countStates (Message.record s r :: msgs) = countStates msgs := by
  simp [countStates, List.filter, Message.isState]

theorem countStates_cons_state (d : ConnectorState) (msgs : List Message) :
    countStates (Message.state d :: msgs) = countStates msgs + 1 := by
  simp [countStates, List.filter, Message.isState]

theorem processRecords_countStates_some (stream : StreamInst) (name : String) (k : Nat)
    (hk : 0 < k) : ∀ rs counter ss cs,
      countStates (processRecords stream name (some k) rs counter ss cs).1
        = (counter + rs.length) / k - counter / k := by
  intro rs
  induction rs with
  | nil => intro counter ss cs; simp [processRecords, countStates]
  | cons r rest ih =>
    intro counter ss cs
    have hkne : k ≠ 0 := Nat.pos_iff_ne_zero.mp hk
    have hlen : counter + (r :: rest).length = counter + 1 + rest.length := by
      simp [List.length_cons]
      omega
    rw [hlen]
    simp only [processRecords]
    by_cases hmod : (counter + 1) % k = 0
    · have hdue : checkpointDue (some k) (counter + 1) = true := by
        simp [checkpointDue, hmod, hkne]
      rw [hdue]
      simp only [if_true, checkpoint_state]
      rw [countStates_cons_record, countStates_cons_state, ih]
      have hdvd : k ∣ counter + 1 := Nat.dvd_of_mod_eq_zero hmod
      have hsucc : (counter + 1) / k = counter / k + 1 := by
        rw [Nat.succ_div]
        simp [hdvd]
      have hmono : (counter + 1) / k ≤ (counter + 1 + rest.length) / k :=
        Nat.div_le_div_right (by omega)
      rw [hsucc] at hmono ⊢
      omega
    · have hdue : checkpointDue (some k) (counter + 1) = false := by
        simp [checkpointDue, hmod, hkne]
      rw [hdue]
      simp only [Bool.false_eq_true, if_false]
      rw [countStates_cons_record, ih]
      have hndvd : ¬ k ∣ counter + 1 := by
        rw [Nat.dvd_iff_mod_eq_zero]
        exact hmod
      have hsucc : (counter + 1) / k = counter / k := by
        rw [Nat.succ_div]
        simp [hndvd]
      rw [hsucc]

theorem processRecords_countStates_none (stream : StreamInst) (name : String) :
    ∀ rs counter ss cs,
      countStates (processRecords stream name none rs counter ss cs).1 = 0 := by
  intro rs
  induction rs with
  | nil => intro counter ss cs; simp [processRecords, countStates]
  | cons r rest ih =>
    intro counter ss cs
    simp only [processRecords, checkpointDue, Bool.false_eq_true, if_false,
      countStates, List.filter, Message.isState]
    exact ih (counter + 1) (stream.get_updated_state ss r) cs

/-- Claim C3: for a slice whose record enumeration yields `rs` without
error, with a positive checkpoint interval `k` the record loop emits
exactly `rs.length / k` intermediate STATE messages (the per-slice counter
starting at zero) and the slice as a whole emits `rs.length / k + 1` STATE
messages, the extra one being the unconditional trailing STATE, which is
the last message of the slice for every interval; with the interval absent
only the trailing STATE is emitted. -/
theorem C3_checkpoint_cadence (stream : StreamInst) (name : String) (cf : List String)
    (sl : Slice) (ss : StreamState) (cs : ConnectorState) (rs : List RecordData)
    (hrr : stream.read_records SyncMode.incremental sl ss cf = (rs, none)) :
    (∀ k, 0 < k →
      countStates (processRecords stream name (some k) rs 0 ss cs).1 = rs.length / k
      ∧ countStates (processSlices stream name (some k) cf [sl] ss cs).1 = rs.length / k + 1)
    ∧ countStates (processSlices stream name none cf [sl] ss cs).1 = 1
    ∧ ∀ interval, ∃ d,
        (processSlices stream name interval cf [sl] ss cs).1.getLast? = some (Message.state d) := by
  have hslice : ∀ interval, (processSlices stream name interval cf [sl] ss cs).1
      = (processRecords stream name interval rs 0 ss cs).1
        ++ [(checkpoint_state name (processRecords stream name interval rs 0 ss cs).2.1
              (processRecords stream name interval rs 0 ss cs).2.2).2] := by
    intro interval
    simp only [processSlices, hrr]
  have hck : ∀ (n : String) (s2 : StreamState) (c2 : ConnectorState),
      countStates [(checkpoint_state n s2 c2).2] = 1 := by
    intro n s2 c2
    simp [checkpoint_state, countStates, List.filter, Message.isState]
  have happ : ∀ (a b : List Message), countStates (a ++ b) = countStates a + countStates b := by
    intro a b
    simp [countStates, List.filter_append]
  refine ⟨?_, ?_, ?_⟩
  · intro k hk
    have hcnt := processRecords_countStates_some stream name k hk rs 0 ss cs
    simp only [Nat.zero_add, Nat.zero_div, Nat.sub_zero] at hcnt
    refine ⟨hcnt, ?_⟩
    rw [hslice, happ, hck, hcnt]
  · rw [hslice, happ, hck, processRecords_countStates_none stream name rs 0 ss cs]
  · intro interval
    rw [hslice]
    exact ⟨_, List.getLast?_concat _⟩

/-- Witness for C3 at a concrete input: five records, interval two: two
intermediate STATE messages plus the trailing one. -/
theorem C3_witness :
    countStates (processSlices
      (constStream "s" [[("ts",1)],[("ts",2)],[("ts",3)],[("ts",4)],[("ts",5)]] (some 2)) "s"
      (some 2) [] [[]] [] []).1 = 5 / 2 + 1 :=
  ((C3_checkpoint_cadence
      (constStream "s" [[("ts",1)],[("ts",2)],[("ts",3)],[("ts",4)],[("ts",5)]] (some 2)) "s"
      [] [] [] [] [[("ts",1)],[("ts",2)],[("ts",3)],[("ts",4)],[("ts",5)]] rfl).1 2
      (by decide)).2

/-! ### C1: records precede states that dominate them -/
theorem stateTs_upd (ss : StreamState) (r : RecordData) :
    stateTs (slack_get_updated_state ss r) = max (rts r) (stateTs ss) := by
  simp [stateTs, slack_get_updated_state, dgetD, dget_dset_self]

theorem entryTs_checkpoint (name : String) (ss : StreamState) (cs : ConnectorState) :
    entryTs name (dset cs name ss) = stateTs ss := by
  simp [entryTs, dgetD, dget_dset_self]

theorem timeline_mono_left (name : String) :
    ∀ (ms : List Message) (v v2 vf : Ts), v2 ≤ v → Timeline name v ms vf →
      Timeline name v2 ms vf := by
  intro ms
  induction ms with
  | nil => intro v v2 vf h ht; exact le_trans h ht
  | cons m rest ih =>
    intro v v2 vf h ht
    cases m with
    | record s r =>
      obtain ⟨v1, h1, h2, h3⟩ := ht
      exact ⟨v1, le_trans h h1, h2, h3⟩
    | state d =>
      exact ⟨le_trans h ht.1, ht.2⟩

theorem timeline_append (name : String) :
    ∀ (ms1 : List Message) (v v1 vf : Ts) (ms2 : List Message),
      Timeline name v ms1 v1 → Timeline name v1 ms2 vf →
      Timeline name v (ms1 ++ ms2) vf := by
  intro ms1
  induction ms1 with
  | nil => intro v v1 vf ms2 h1 h2; exact timeline_mono_left name ms2 v1 v vf h1 h2
  | cons m rest ih =>
    intro v v1 vf ms2 h1 h2
    cases m with
    | record s r =>
      obtain ⟨w, hw1, hw2, hw3⟩ := h1
      exact ⟨w, hw1, hw2, ih w v1 vf ms2 hw3 h2⟩
    | state d =>
      exact ⟨h1.1, ih (entryTs name d) v1 vf ms2 h1.2 h2⟩

theorem timeline_le_state (name : String) :
    ∀ (pre : List Message) (v vf : Ts) (d : ConnectorState) (post : List Message),
      Timeline name v (pre ++ Message.state d :: post) vf → v ≤ entryTs name d := by
  intro pre
  induction pre with
  | nil => intro v vf d post ht; exact ht.1
  | cons m rest ih =>
    intro v vf d post ht
    cases m with
    | record s r =>
      obtain ⟨v1, h1, _, h3⟩ := ht
      exact le_trans h1 (ih v1 vf d post h3)
    | state d2 =>
      exact le_trans ht.1 (ih (entryTs name d2) vf d post ht.2)

theorem timeline_record_le_state (name : String) :
    ∀ (pre : List Message) (v vf : Ts) (d : ConnectorState) (post : List Message),
      Timeline name v (pre ++ Message.state d :: post) vf →
      ∀ (s : String) (r : RecordData), Message.record s r ∈ pre →
        rts r ≤ entryTs name d := by
  intro pre
  induction pre with
  | nil => intro v vf d post ht s r hmem; exact absurd hmem (List.not_mem_nil _)
  | cons m rest ih =>
    intro v vf d post ht s r hmem
    cases m with
    | record s0 r0 =>
      obtain ⟨v1, h1, h2, h3⟩ := ht
      rcases List.mem_cons.mp hmem with heq | hmem2
      · cases heq
        exact le_trans h2 (timeline_le_state name rest v1 vf d post h3)
      · exact ih v1 vf d post h3 s r hmem2
    | state d2 =>
      rcases List.mem_cons.mp hmem with heq | hmem2
      · exact absurd heq (by simp)
      · exact ih (entryTs name d2) vf d post ht.2 s r hmem2

theorem processRecords_timeline (stream : StreamInst) (name : String) (interval : Option Nat)
    (hupd : stream.get_updated_state = slack_get_updated_state) :
    ∀ rs counter ss cs,
      Timeline name (stateTs ss) (processRecords stream name interval rs counter ss cs).1
        (stateTs (processRecords stream name interval rs counter ss cs).2.1) := by
  intro rs
  induction rs with
  | nil => intro counter ss cs; exact le_refl _
  | cons r rest ih =>
    intro counter ss cs
    simp only [processRecords, hupd]
    by_cases hdue : checkpointDue interval (counter + 1) = true
    · rw [hdue]
      simp only [if_true, checkpoint_state]
      refine ⟨max (rts r) (stateTs ss), le_max_right _ _, le_max_left _ _, ?_⟩
      rw [← stateTs_upd ss r]
      refine ⟨le_of_eq (entryTs_checkpoint name _ cs).symm, ?_⟩
      rw [entryTs_checkpoint name _ cs]
      have := ih (counter + 1) (slack_get_updated_state ss r)
        (dset cs name (slack_get_updated_state ss r))
      simpa [hupd] using this
    · rw [Bool.not_eq_true] at hdue
      rw [hdue]
      simp only [Bool.false_eq_true, if_false]
      refine ⟨max (rts r) (stateTs ss), le_max_right _ _, le_max_left _ _, ?_⟩
      rw [← stateTs_upd ss r]
      have := ih (counter + 1) (slack_get_updated_state ss r) cs
      simpa [hupd] using this

theorem processSlices_timeline (stream : StreamInst) (name : String) (interval : Option Nat)
    (cf : List String) (hupd : stream.get_updated_state = slack_get_updated_state) :
    ∀ sls ss cs,
      Timeline name (stateTs ss) (processSlices stream name interval cf sls ss cs).1
        (stateTs (processSlices stream name interval cf sls ss cs).2.1) := by
  intro sls
  induction sls with
  | nil => intro ss cs; exact le_refl _
  | cons sl rest ih =>
    intro ss cs
    simp only [processSlices]
    cases herr : (stream.read_records SyncMode.incremental sl ss cf).2 with
    | some e =>
      exact processRecords_timeline stream name interval hupd _ 0 ss cs
    | none =>
      have hrec := processRecords_timeline stream name interval hupd
        (stream.read_records SyncMode.incremental sl ss cf).1 0 ss cs
      refine timeline_append name _ _ _ _ _ hrec ?_
      simp only [checkpoint_state]
      refine ⟨le_of_eq (entryTs_checkpoint name _ _).symm, ?_⟩
      rw [entryTs_checkpoint]
      exact ih _ _

/-- Claim C1: in an incremental read of a stream whose state update folds
the maximum of the tracked value and the record cursor, every record
emitted strictly before a STATE message has cursor value at most the
cursor recorded for that stream in that STATE message. -/
theorem C1_records_bounded_by_later_states (stream : StreamInst)
    (configured : ConfiguredStream) (cs : ConnectorState)
    (hupd : stream.get_updated_state = slack_get_updated_state)
    (pre : List Message) (d : ConnectorState) (post : List Message) (r : RecordData)
    (hdec : (read_incremental stream configured cs).1 = pre ++ Message.state d :: post)
    (hmem : Message.record configured.stream_name r ∈ pre) :
    rts r ≤ entryTs configured.stream_name d := by
  have ht := processSlices_timeline stream configured.stream_name
    stream.state_checkpoint_interval configured.cursor_field hupd
    (stream.stream_slices SyncMode.incremental configured.cursor_field
      (dgetD cs configured.stream_name [])).1
    (dgetD cs configured.stream_name []) cs
  have hmsgs : (read_incremental stream configured cs).1
      = (processSlices stream configured.stream_name stream.state_checkpoint_interval
          configured.cursor_field
          (stream.stream_slices SyncMode.incremental configured.cursor_field
            (dgetD cs configured.stream_name [])).1
          (dgetD cs configured.stream_name []) cs).1 := rfl
  rw [hmsgs] at hdec
  rw [hdec] at ht
  exact timeline_record_le_state configured.stream_name pre _ _ d post ht
    configured.stream_name r hmem

/-- Witness for C1 at a concrete input: the record with cursor 3 precedes
the trailing STATE that records cursor 5 for the stream. -/
theorem C1_witness : rts [("ts", 3)] ≤ entryTs "s" [("s", [("ts", 5)])] :=
  C1_records_bounded_by_later_states (constStream "s" [[("ts",3)],[("ts",5)]] (some 1))
    ⟨"s", SyncMode.incremental, []⟩ [] rfl
    [Message.record "s" [("ts", 3)], Message.state [("s", [("ts", 3)])],
      Message.record "s" [("ts", 5)]]
    [("s", [("ts", 5)])]
    [Message.state [("s", [("ts", 5)])]]
    [("ts", 3)] (by decide) (by decide)

theorem keysSub_refl (a : ConnectorState) : keysSub a a := fun _ h => h

theorem keysSub_trans {a b c : ConnectorState} (h1 : keysSub a b) (h2 : keysSub b c) :
    keysSub a c := fun k h => h2 k (h1 k h)

theorem keysSub_dset (cs : ConnectorState) (k : String) (v : StreamState) :
    keysSub cs (dset cs k v) := by
  intro k2 h
  by_cases hk : k = k2
  · subst hk
    rw [dget_dset_self]
    rfl
  · rw [dget_dset_ne cs k k2 v hk]
    exact h

theorem keychain_mono_left :
    ∀ (ms : List Message) (cs0 cs cs1 : ConnectorState),
      keysSub cs0 cs → KeyChain cs ms cs1 → KeyChain cs0 ms cs1 := by
  intro ms
  induction ms with
  | nil => intro cs0 cs cs1 h hc; exact keysSub_trans h hc
  | cons m rest ih =>
    intro cs0 cs cs1 h hc
    cases m with
    | record s r => exact ih cs0 cs cs1 h hc
    | state d => exact ⟨keysSub_trans h hc.1, hc.2⟩

theorem keychain_append :
    ∀ (ms1 : List Message) (cs mid cs1 : ConnectorState) (ms2 : List Message),
      KeyChain cs ms1 mid → KeyChain mid ms2 cs1 → KeyChain cs (ms1 ++ ms2) cs1 := by
  intro ms1
  induction ms1 with
  | nil => intro cs mid cs1 ms2 h1 h2; exact keychain_mono_left ms2 cs mid cs1 h1 h2
  | cons m rest ih =>
    intro cs mid cs1 ms2 h1 h2
    cases m with
    | record s r => exact ih cs mid cs1 ms2 h1 h2
    | state d => exact ⟨h1.1, ih d mid cs1 ms2 h1.2 h2⟩

theorem keychain_of_records :
    ∀ (ms : List Message) (cs : ConnectorState), ms.all Message.isRecord = true →
      KeyChain cs ms cs := by
  intro ms
  induction ms with
  | nil => intro cs _; exact keysSub_refl cs
  | cons m rest ih =>
    intro cs hall
    cases m with
    | record s r =>
      exact ih cs (by simpa [List.all_cons, Message.isRecord] using hall)
    | state d => simp [List.all_cons, Message.isRecord] at hall

theorem keychain_le_state :
    ∀ (pre : List Message) (cs cs1 : ConnectorState) (d : ConnectorState)
      (post : List Message),
      KeyChain cs (pre ++ Message.state d :: post) cs1 → keysSub cs d := by
  intro pre
  induction pre with
  | nil => intro cs cs1 d post h; exact h.1
  | cons m rest ih =>
    intro cs cs1 d post h
    cases m with
    | record s r => exact ih cs cs1 d post h
    | state d2 => exact keysSub_trans h.1 (ih d2 cs1 d post h.2)

theorem keychain_state_le_state :
    ∀ (pre : List Message) (cs cs1 : ConnectorState) (d : ConnectorState)
      (post : List Message),
      KeyChain cs (pre ++ Message.state d :: post) cs1 →
      ∀ d2, Message.state d2 ∈ pre → keysSub d2 d := by
  intro pre
  induction pre with
  | nil => intro cs cs1 d post _ d2 hmem; exact absurd hmem (List.not_mem_nil _)
  | cons m rest ih =>
    intro cs cs1 d post h d2 hmem
    cases m with
    | record s r =>
      rcases List.mem_cons.mp hmem with heq | hmem2
      · exact absurd heq (by simp)
      · exact ih cs cs1 d post h d2 hmem2
    | state d3 =>
      rcases List.mem_cons.mp hmem with heq | hmem2
      · cases heq
        exact keychain_le_state rest d2 cs1 d post h.2
      · exact ih d3 cs1 d post h.2 d2 hmem2

theorem processRecords_keychain (stream : StreamInst) (name : String) (interval : Option Nat) :
    ∀ rs counter ss cs,
      KeyChain cs (processRecords stream name interval rs counter ss cs).1
        (processRecords stream name interval rs counter ss cs).2.2 := by
  intro rs
  induction rs with
  | nil => intro counter ss cs; exact keysSub_refl cs
  | cons r rest ih =>
    intro counter ss cs
    simp only [processRecords]
    by_cases hdue : checkpointDue interval (counter + 1) = true
    · rw [hdue]
      simp only [if_true, checkpoint_state]
      exact ⟨keysSub_dset cs name _, ih (counter + 1) _ _⟩
    · rw [Bool.not_eq_true] at hdue
      rw [hdue]
      simp only [Bool.false_eq_true, if_false]
      exact ih (counter + 1) _ cs

theorem processSlices_keychain (stream : StreamInst) (name : String) (interval : Option Nat)
    (cf : List String) :
    ∀ sls ss cs,
      KeyChain cs (processSlices stream name interval cf sls ss cs).1
        (processSlices stream name interval cf sls ss cs).2.2.1 := by
  intro sls
  induction sls with
  | nil => intro ss cs; exact keysSub_refl cs
  | cons sl rest ih =>
    intro ss cs
    simp only [processSlices]
    cases herr : (stream.read_records SyncMode.incremental sl ss cf).2 with
    | some e => exact processRecords_keychain stream name interval _ 0 ss cs
    | none =>
      refine keychain_append _ _ _ _ _ (processRecords_keychain stream name interval _ 0 ss cs) ?_
      simp only [checkpoint_state]
      exact ⟨keysSub_dset _ name _, ih _ _⟩

theorem read_stream_keychain (stream : StreamInst) (configured : ConfiguredStream)
    (cs : ConnectorState) :
    KeyChain cs (read_stream stream configured cs).1 (read_stream stream configured cs).2.2.1 := by
  by_cases h : useIncremental stream configured = true
  · simp only [read_stream, h, if_true]
    exact processSlices_keychain stream configured.stream_name
      stream.state_checkpoint_interval configured.cursor_field _ _ cs
  · rw [Bool.not_eq_true] at h
    simp only [read_stream, h, Bool.false_eq_true, if_false]
    exact keychain_of_records _ cs (C7_full_refresh_purity stream configured).1

theorem readStreams_keychain (source_name : String) (instances : List (String × StreamInst)) :
    ∀ catalog cs, ∃ cs1,
      KeyChain cs (readStreams source_name instances catalog cs).1 cs1 := by
  intro catalog
  induction catalog with
  | nil => intro cs; exact ⟨cs, keysSub_refl cs⟩
  | cons c rest ih =>
    intro cs
    simp only [readStreams]
    cases hfind : dget instances c.stream_name with
    | none => exact ⟨cs, keysSub_refl cs⟩
    | some stream =>
      dsimp only
      cases herr : (read_stream stream c cs).2.2.2 with
      | some e =>
        dsimp only
        exact ⟨(read_stream stream c cs).2.2.1, read_stream_keychain stream c cs⟩
      | none =>
        dsimp only
        obtain ⟨cs1, hc1⟩ := ih (read_stream stream c cs).2.2.1
        exact ⟨cs1, keychain_append _ _ _ _ _ (read_stream_keychain stream c cs) hc1⟩

/-- Claim C6: every STATE message emitted by `read` carries the entire
connector-state map: it has an entry for every stream of the seed state
(including streams not yet reached), and for every stream that appears in
any earlier STATE message of the run (streams synced earlier) — it is not
a delta restricted to the stream currently being read. -/
theorem C6_state_snapshots_whole_map (source_name : String) (streams : List StreamInst)
    (catalog : List ConfiguredStream) (seed : ConnectorState)
    (pre : List Message) (d : ConnectorState) (post : List Message)
    (hdec : (read source_name streams catalog (some seed)).1 = pre ++ Message.state d :: post) :
    keysSub seed d ∧ ∀ d2, Message.state d2 ∈ pre → keysSub d2 d := by
  obtain ⟨cs1, hchain⟩ := readStreams_keychain source_name
    (streams.foldl (fun m s => dset m s.name s) []) catalog seed
  have hmsgs : (read source_name streams catalog (some seed)).1
      = (readStreams source_name (streams.foldl (fun m s => dset m s.name s) [])
          catalog seed).1 := rfl
  rw [hmsgs] at hdec
  rw [hdec] at hchain
  exact ⟨keychain_le_state pre seed cs1 d post hchain,
    keychain_state_le_state pre seed cs1 d post hchain⟩

/-- Witness for C6 at a concrete input: with a seeded entry for stream `z`
and two incremental streams `a` then `b`, the STATE emitted while reading
`b` still contains the seeded `z` entry and the earlier `a` entry. -/
theorem C6_witness :
    keysSub [("z", [("ts", 9)])]
        [("z", [("ts", 9)]), ("a", [("ts", 1)]), ("b", [("ts", 2)])]
    ∧ ∀ d2, Message.state d2 ∈
        [Message.record "a" [("ts", 1)], Message.state [("z", [("ts", 9)]), ("a", [("ts", 1)])],
          Message.record "b" [("ts", 2)]] →
        keysSub d2 [("z", [("ts", 9)]), ("a", [("ts", 1)]), ("b", [("ts", 2)])] :=
  C6_state_snapshots_whole_map "src"
    [constStream "a" [[("ts", 1)]] none, constStream "b" [[("ts", 2)]] none]
    [⟨"a", SyncMode.incremental, []⟩, ⟨"b", SyncMode.incremental, []⟩]
    [("z", [("ts", 9)])]
    [Message.record "a" [("ts", 1)], Message.state [("z", [("ts", 9)]), ("a", [("ts", 1)])],
      Message.record "b" [("ts", 2)]]
    [("z", [("ts", 9)]), ("a", [("ts", 1)]), ("b", [("ts", 2)])]
    [] (by decide)

theorem dset_dset {κ α : Type} [BEq κ] [LawfulBEq κ] (m : List (κ × α)) (k : κ) (a b : α) :
    dset (dset m k a) k b = dset m k b := by
  induction m with
  | nil => simp [dset]
  | cons p rest ih =>
    by_cases h : (p.1 == k) = true
    · simp [dset, h]
    · rw [Bool.not_eq_true] at h
      simp [dset, h, ih]

theorem processRecords_finalSS (stream : StreamInst) (name : String) (interval : Option Nat) :
    ∀ rs counter ss cs,
      (processRecords stream name interval rs counter ss cs).2.1
        = rs.foldl stream.get_updated_state ss := by
  intro rs
  induction rs with
  | nil => intro counter ss cs; rfl
  | cons r rest ih =>
    intro counter ss cs
    simp only [processRecords, List.foldl_cons]
    by_cases hdue : checkpointDue interval (counter + 1) = true
    · rw [hdue]
      simp only [if_true]
      exact ih (counter + 1) _ _
    · rw [Bool.not_eq_true] at hdue
      rw [hdue]
      simp only [Bool.false_eq_true, if_false]
      exact ih (counter + 1) _ _

theorem foldl_slack_eq_dset :
    ∀ (rs : List RecordData) (r : RecordData) (ss : StreamState),
      (r :: rs).foldl slack_get_updated_state ss
        = dset ss "ts" ((r :: rs).foldl cursorFold (stateTs ss)) := by
  intro rs
  induction rs with
  | nil =>
    intro r ss
    rfl
  | cons r2 rest ih =>
    intro r ss
    have h1 : (r :: r2 :: rest).foldl slack_get_updated_state ss
        = (r2 :: rest).foldl slack_get_updated_state (slack_get_updated_state ss r) := rfl
    rw [h1, ih r2 (slack_get_updated_state ss r)]
    have h2 : slack_get_updated_state ss r = dset ss "ts" (cursorFold (stateTs ss) r) := rfl
    rw [h2, dset_dset]
    have h3 : stateTs (dset ss "ts" (cursorFold (stateTs ss) r))
        = cursorFold (stateTs ss) r := by
      simp [stateTs, dgetD, dget_dset_self]
    rw [h3]
    rfl

theorem foldl_cursorFold_out :
    ∀ (rs : List RecordData) (a b : Ts),
      rs.foldl cursorFold (max a b) = max b (rs.foldl cursorFold a) := by
  intro rs
  induction rs with
  | nil => intro a b; exact max_comm a b
  | cons r rest ih =>
    intro a b
    show List.foldl cursorFold (max (rts r) (max a b)) rest
      = max b (List.foldl cursorFold (max (rts r) a) rest)
    rw [← max_assoc]
    exact ih (max (rts r) a) b

theorem foldl_cursorFold_perm {rs rs2 : List RecordData} (hperm : rs.Perm rs2) :
    ∀ a, rs.foldl cursorFold a = rs2.foldl cursorFold a :=
  hperm.foldl_eq' fun x _ y _ z => by
    simp only [cursorFold]
    rw [max_left_comm]

/-- Counterexample to claim C5 as stated: a single record with negative
cursor value −1 processed from the empty state leaves the tracked value at
0, not at max(v1..vn) = −1, because `get_updated_state` folds with default
0 (`current_stream_state.get("ts", 0)`). -/
theorem C5_counterexample :
    stateTs (processRecords (constStream) "s" none [[("ts", -1)]] 0 [] []).2.1 = 0
    ∧ cursorMax [[("ts", -1)]] = -1
    ∧ (0 : Ts) ≠ -1 := by
  refine ⟨by decide, by decide, by decide⟩

/-- Claim C5 as amended: for a stream whose state update is the Slack
max-fold, the final tracked value after processing records `rs` from the
empty state equals `max(0, v1..vn)` — hence equals `max(v1..vn)` whenever
that maximum is nonnegative (as epoch timestamps are) — and the final
stream state is independent of the arrival order and of the per-slice
counter and connector-state context. -/
theorem C5_monotonicity_amended (stream : StreamInst) (name : String) (interval : Option Nat)
    (hupd : stream.get_updated_state = slack_get_updated_state)
    (rs rs2 : List RecordData) (hperm : rs.Perm rs2) (r0 : RecordData) (rest0 : List RecordData)
    (hne : rs = r0 :: rest0) (hnn : 0 ≤ cursorMax rs) :
    stateTs (processRecords stream name interval rs 0 [] []).2.1 = cursorMax rs
    ∧ ∀ ss cs cs2 counter counter2,
        (processRecords stream name interval rs counter ss cs).2.1
          = (processRecords stream name interval rs2 counter2 ss cs2).2.1 := by
  subst hne
  obtain ⟨r2, rest2, hne2⟩ : ∃ r2 rest2, rs2 = r2 :: rest2 := by
    cases h2 : rs2 with
    | nil =>
      rw [h2] at hperm
      exact absurd hperm.eq_nil (by simp)
    | cons a b => exact ⟨a, b, rfl⟩
  constructor
  · rw [processRecords_finalSS, hupd, foldl_slack_eq_dset]
    have hst : stateTs ([] : StreamState) = 0 := rfl
    rw [hst]
    have h0 : ((r0 :: rest0).foldl cursorFold (0 : Ts)) = cursorMax (r0 :: rest0) := by
      show List.foldl cursorFold (cursorFold 0 r0) rest0 = cursorMax (r0 :: rest0)
      have hcf : cursorFold 0 r0 = max (rts r0) 0 := rfl
      rw [hcf, foldl_cursorFold_out rest0 (rts r0) 0]
      exact max_eq_right hnn
    rw [h0]
    simp [stateTs, dgetD, dget_dset_self]
  · intro ss cs cs2 counter counter2
    rw [processRecords_finalSS, processRecords_finalSS, hupd]
    rw [hne2] at hperm ⊢
    rw [foldl_slack_eq_dset, foldl_slack_eq_dset]
    rw [foldl_cursorFold_perm hperm (stateTs ss)]

/-- Witness for the amended C5 at a concrete input: records with cursors
3 and 5 in either order give final tracked value 5. -/
theorem C5_witness :
    stateTs (processRecords (constStream) "s" none [[("ts", 3)], [("ts", 5)]] 0 [] []).2.1
      = cursorMax [[("ts", 3)], [("ts", 5)]]
    ∧ (processRecords (constStream) "s" none [[("ts", 3)], [("ts", 5)]] 7 [("k", 1)]
          [("c", [])]).2.1
      = (processRecords (constStream) "s" none [[("ts", 5)], [("ts", 3)]] 2 [("k", 1)] []).2.1 :=
  ⟨(C5_monotonicity_amended (constStream) "s" none rfl
      [[("ts", 3)], [("ts", 5)]] [[("ts", 5)], [("ts", 3)]] (by decide)
      [("ts", 3)] [[("ts", 5)]] rfl (by decide)).1,
   (C5_monotonicity_amended (constStream) "s" none rfl
      [[("ts", 3)], [("ts", 5)]] [[("ts", 5)], [("ts", 3)]] (by decide)
      [("ts", 3)] [[("ts", 5)]] rfl (by decide)).2 [("k", 1)] [("c", [])] [] 7 2⟩

/-- Counterexample to claim C9 as stated: when record enumeration of the
`channel_messages` stream raises, the failure log line interpolates the
SOURCE name (`self.name`, here `SourceSlack`), not the stream name, and no
log line reports the records-read-so-far counter (the count line is only
emitted on successful completion). -/
theorem C9_counterexample :
    (read "SourceSlack"
        [errStream "channel_messages" [[("ts", 1)]] "boom", constStream "users" [[("ts", 2)]] none]
        [⟨"channel_messages", SyncMode.incremental, []⟩, ⟨"users", SyncMode.incremental, []⟩]
        none).2.1
      = ["Starting syncing SourceSlack", "Syncing stream: channel_messages ",
         "Encountered an exception while reading stream SourceSlack"]
    ∧ "Encountered an exception while reading stream channel_messages"
        ∉ (read "SourceSlack"
            [errStream "channel_messages" [[("ts", 1)]] "boom",
              constStream "users" [[("ts", 2)]] none]
            [⟨"channel_messages", SyncMode.incremental, []⟩, ⟨"users", SyncMode.incremental, []⟩]
            none).2.1
    ∧ "Read 1 records from channel_messages stream"
        ∉ (read "SourceSlack"
            [errStream "channel_messages" [[("ts", 1)]] "boom",
              constStream "users" [[("ts", 2)]] none]
            [⟨"channel_messages", SyncMode.incremental, []⟩, ⟨"users", SyncMode.incremental, []⟩]
            none).2.1 := by
  refine ⟨by decide, by decide, by decide⟩

/-- Claim C9 as amended: if an exception escapes slice or record
enumeration of a stream, the orchestrator logs a failure line naming the
SOURCE (not the failing stream, and without the records-read counter,
which is only logged on success), re-raises the same exception, and the
whole run aborts: the streams configured after the failing one contribute
no messages and no log lines. -/
theorem C9_abort_amended (source_name : String) (instances : List (String × StreamInst))
    (c : ConfiguredStream) (rest : List ConfiguredStream) (cs : ConnectorState)
    (stream : StreamInst) (e : Err)
    (hfind : dget instances c.stream_name = some stream)
    (herr : (read_stream stream c cs).2.2.2 = some e) :
    readStreams source_name instances (c :: rest) cs
      = ((read_stream stream c cs).1,
         (read_stream stream c cs).2.1
           ++ ["Encountered an exception while reading stream " ++ source_name],
         some e) := by
  simp only [readStreams, hfind]
  rw [herr]

/-- Witness for the amended C9 at a concrete input. -/
theorem C9_witness :
    readStreams "SourceSlack"
        [("channel_messages", errStream "channel_messages" [[("ts", 1)]] "boom")]
        [⟨"channel_messages", SyncMode.incremental, []⟩, ⟨"users", SyncMode.incremental, []⟩] []
      = ([Message.record "channel_messages" [("ts", 1)]],
         ["Syncing stream: channel_messages ",
           "Encountered an exception while reading stream SourceSlack"],
         some "boom") :=
  (C9_abort_amended "SourceSlack"
      [("channel_messages", errStream "channel_messages" [[("ts", 1)]] "boom")]
      ⟨"channel_messages", SyncMode.incremental, []⟩
      [⟨"users", SyncMode.incremental, []⟩] []
      (errStream "channel_messages" [[("ts", 1)]] "boom") "boom"
      rfl (by decide)).trans (by decide)

/-- Claim C2 fails on the code: with the server holding records with
cursors 3 and 5 inside the single one-day window, a first read emits as
its final STATE message the map recording cursor 5 for the stream; a
second read seeded with exactly that map re-emits the record with cursor
3 < 5, because `get_updated_state` writes the key `"ts"` while
`ChannelMessages.stream_slices` reads the key `"start_ts"` and therefore
falls back to the default start date, and `read_records` never filters by
the stream state. -/
theorem C2_codebug_eval :
    (read "SourceSlack" [mkChannelMessages 0 0 [[("ts", 3)], [("ts", 5)]]]
        [⟨"channel_messages", SyncMode.incremental, ["ts"]⟩] none).1.getLast?
      = some (Message.state [("channel_messages", [("ts", 5)])])
    ∧ Message.record "channel_messages" [("ts", 3)]
        ∈ (read "SourceSlack" [mkChannelMessages 0 0 [[("ts", 3)], [("ts", 5)]]]
            [⟨"channel_messages", SyncMode.incremental, ["ts"]⟩]
            (some [("channel_messages", [("ts", 5)])])).1
    ∧ rts [("ts", 3)] < entryTs "channel_messages" [("channel_messages", [("ts", 5)])] := by
  refine ⟨by decide, by decide, by decide⟩

/-- Claim C4 fails on the code: seeding the stream with a future
`start_ts` (day 11, with now at day 10) makes `chunk_date_range` produce
no slices, so `_read_incremental` emits NO messages at all — zero RECORD
messages as claimed, but also zero STATE messages, although the claim
(and the acceptance test) require at least one. -/
theorem C4_codebug_eval :
    (read "SourceSlack" [mkChannelMessages 0 864000 [[("ts", 3)], [("ts", 5)]]]
        [⟨"channel_messages", SyncMode.incremental, ["ts"]⟩]
        (some [("channel_messages", [("start_ts", 950400)])])).1 = [] := by decide

theorem FrameGE_refl (N : Nat) (h : Heap) (hN : N ≤ h.next) : FrameGE N h h :=
  ⟨hN, fun _ _ => rfl, fun _ _ => rfl⟩

theorem FrameGE_trans {N : Nat} {h h1 h2 : Heap} (f1 : FrameGE N h h1)
    (f2 : FrameGE N h1 h2) : FrameGE N h h2 :=
  ⟨f2.1, fun a ha => (f2.2.1 a ha).trans (f1.2.1 a ha),
    fun a ha => (f2.2.2 a ha).trans (f1.2.2 a ha)⟩

theorem mem_dset {κ α : Type} [BEq κ] [LawfulBEq κ] {m : List (κ × α)} {k : κ} {v : α} :
    ∀ kv ∈ dset m k v, kv ∈ m ∨ kv = (k, v) := by
  induction m with
  | nil =>
    intro kv hkv
    simp [dset] at hkv
    exact Or.inr hkv
  | cons p rest ih =>
    intro kv hkv
    by_cases hb : (p.1 == k) = true
    · simp only [dset, hb, if_true] at hkv
      rcases List.mem_cons.mp hkv with heq | hmem
      · right
        rw [heq]
        have hpk : p.1 = k := by simpa using hb
        rw [hpk]
      · left
        exact List.mem_cons_of_mem p hmem
    · rw [Bool.not_eq_true] at hb
      simp only [dset, hb, Bool.false_eq_true, if_false] at hkv
      rcases List.mem_cons.mp hkv with heq | hmem
      · left
        rw [heq]
        exact List.mem_cons_self p rest
      · rcases ih kv hmem with h1 | h2
        · exact Or.inl (List.mem_cons_of_mem p h1)
        · exact Or.inr h2
  -- note: in the overwrite case the new pair is (p.1, v) with p.1 == k

theorem dget_mem {κ α : Type} [BEq κ] [LawfulBEq κ] {m : List (κ × α)} {k : κ} {v : α}
    (h : dget m k = some v) : (k, v) ∈ m := by
  induction m with
  | nil => simp [dget, List.find?] at h
  | cons p rest ih =>
    by_cases hb : (p.1 == k) = true
    · simp only [dget, List.find?, hb] at h
      cases h
      have : p.1 = k := by simpa using hb
      rw [← this]
      exact List.mem_cons_self p rest
    · rw [Bool.not_eq_true] at hb
      simp only [dget, List.find?, hb] at h
      exact List.mem_cons_of_mem p (ih h)

theorem frame_writeOuter (N : Nat) (h : Heap) (a : Nat) (v : List (String × Nat))
    (hN : N ≤ h.next) (ha : N ≤ a) : FrameGE N h (writeOuter h a v) := by
  refine ⟨hN, ?_, fun _ _ => rfl⟩
  intro a2 ha2
  exact dget_dset_ne h.outer a a2 v (by omega)

theorem frame_writeInner (N : Nat) (h : Heap) (a : Nat) (v : StreamState)
    (hN : N ≤ h.next) (ha : N ≤ a) : FrameGE N h (writeInner h a v) := by
  refine ⟨hN, fun _ _ => rfl, ?_⟩
  intro a2 ha2
  exact dget_dset_ne h.inner a a2 v (by omega)

theorem frame_allocOuter (N : Nat) (h : Heap) (v : List (String × Nat))
    (hN : N ≤ h.next) : FrameGE N h (allocOuter h v).1 := by
  refine ⟨by simp [allocOuter]; omega, ?_, fun _ _ => rfl⟩
  intro a2 ha2
  exact dget_dset_ne h.outer h.next a2 v (by omega)

theorem frame_allocInner (N : Nat) (h : Heap) (v : StreamState)
    (hN : N ≤ h.next) : FrameGE N h (allocInner h v).1 := by
  refine ⟨by simp [allocInner]; omega, fun _ _ => rfl, ?_⟩
  intro a2 ha2
  exact dget_dset_ne h.inner h.next a2 v (by omega)

theorem slackUpdateHeap_outer (h : Heap) (ssA : Nat) (r : RecordData) :
    (slackUpdateHeap h ssA r).1.outer = h.outer := by
  by_cases he : (readInner h ssA).isEmpty
  · simp [slackUpdateHeap, he, writeInner, allocInner]
  · simp [slackUpdateHeap, he, writeInner]

theorem slackUpdateHeap_frame (N : Nat) (h : Heap) (ssA : Nat) (r : RecordData)
    (hN : N ≤ h.next) (hss : N ≤ ssA) :
    FrameGE N h (slackUpdateHeap h ssA r).1 ∧ N ≤ (slackUpdateHeap h ssA r).2 := by
  by_cases he : (readInner h ssA).isEmpty
  · simp only [slackUpdateHeap, he, if_true]
    have f1 := frame_allocInner N h [] hN
    have hnext1 : N ≤ (allocInner h []).1.next := f1.1
    have f2 := frame_writeInner N (allocInner h []).1 (allocInner h []).2
      (dset [] "ts" (max (rts r) (dgetD ([] : StreamState) "ts" 0))) hnext1
      (by simp [allocInner]; omega)
    exact ⟨FrameGE_trans f1 f2, by simp [allocInner]; omega⟩
  · simp only [slackUpdateHeap, he, Bool.false_eq_true, if_false]
    exact ⟨frame_writeInner N h ssA _ hN hss, hss⟩

theorem checkpointHeap_frame (N : Nat) (h : Heap) (csA : Nat) (name : String) (ssA : Nat)
    (hN : N ≤ h.next) (hcs : N ≤ csA) :
    FrameGE N h (checkpointHeap h csA name ssA).1 :=
  frame_writeOuter N h csA _ hN hcs

theorem heapOK_of_frame_outer_eq {N : Nat} {h h2 : Heap} {csA : Nat}
    (hok : HeapOK N h csA) (hfr : FrameGE N h h2) (houter : h2.outer = h.outer) :
    HeapOK N h2 csA := by
  refine ⟨hfr.1, hok.2.1, ?_⟩
  intro kv hkv
  apply hok.2.2
  have : readOuter h2 csA = readOuter h csA := by
    simp [readOuter, dgetD, dget, houter]
  rw [← this]
  exact hkv

theorem checkpointHeap_heapOK (N : Nat) (h : Heap) (csA : Nat) (name : String) (ssA : Nat)
    (hok : HeapOK N h csA) (hss : N ≤ ssA) :
    HeapOK N (checkpointHeap h csA name ssA).1 csA := by
  refine ⟨hok.1, hok.2.1, ?_⟩
  intro kv hkv
  have hro : readOuter (checkpointHeap h csA name ssA).1 csA
      = dset (readOuter h csA) name ssA := by
    simp [checkpointHeap, writeOuter, readOuter, dgetD, dget_dset_self]
  rw [hro] at hkv
  rcases mem_dset kv hkv with hm | he
  · exact hok.2.2 kv hm
  · rcases mem_dset kv hkv with hm2 | he2
    · exact hok.2.2 kv hm2
    · rw [he2]
      exact hss

theorem processRecordsHeap_frame (N : Nat) (name : String) (interval : Option Nat) :
    ∀ (rs : List RecordData) (counter : Nat) (h : Heap) (ssA csA : Nat),
      HeapOK N h csA → N ≤ ssA →
      FrameGE N h (processRecordsHeap name interval rs counter h ssA csA).2.1
      ∧ HeapOK N (processRecordsHeap name interval rs counter h ssA csA).2.1 csA
      ∧ N ≤ (processRecordsHeap name interval rs counter h ssA csA).2.2 := by
  intro rs
  induction rs with
  | nil =>
    intro counter h ssA csA hok hss
    exact ⟨FrameGE_refl N h hok.1, hok, hss⟩
  | cons r rest ih =>
    intro counter h ssA csA hok hss
    have hup := slackUpdateHeap_frame N h ssA r hok.1 hss
    have hokup : HeapOK N (slackUpdateHeap h ssA r).1 csA :=
      heapOK_of_frame_outer_eq hok hup.1 (slackUpdateHeap_outer h ssA r)
    simp only [processRecordsHeap]
    by_cases hdue : checkpointDue interval (counter + 1) = true
    · rw [hdue]
      simp only [if_true]
      have hck := checkpointHeap_frame N (slackUpdateHeap h ssA r).1 csA name
        (slackUpdateHeap h ssA r).2 hokup.1 hokup.2.1
      have hokck := checkpointHeap_heapOK N (slackUpdateHeap h ssA r).1 csA name
        (slackUpdateHeap h ssA r).2 hokup hup.2
      have hrec := ih (counter + 1)
        (checkpointHeap (slackUpdateHeap h ssA r).1 csA name (slackUpdateHeap h ssA r).2).1
        (slackUpdateHeap h ssA r).2 csA hokck hup.2
      exact ⟨FrameGE_trans (FrameGE_trans hup.1 hck) hrec.1, hrec.2.1, hrec.2.2⟩
    · rw [Bool.not_eq_true] at hdue
      rw [hdue]
      simp only [Bool.false_eq_true, if_false]
      have hrec := ih (counter + 1) (slackUpdateHeap h ssA r).1
        (slackUpdateHeap h ssA r).2 csA hokup hup.2
      exact ⟨FrameGE_trans hup.1 hrec.1, hrec.2.1, hrec.2.2⟩

theorem processSlicesHeap_frame (N : Nat) (stream : StreamInst) (name : String)
    (interval : Option Nat) (cf : List String) :
    ∀ (sls : List Slice) (h : Heap) (ssA csA : Nat),
      HeapOK N h csA → N ≤ ssA →
      FrameGE N h (processSlicesHeap stream name interval cf sls h ssA csA).2.1
      ∧ HeapOK N (processSlicesHeap stream name interval cf sls h ssA csA).2.1 csA := by
  intro sls
  induction sls with
  | nil =>
    intro h ssA csA hok hss
    exact ⟨FrameGE_refl N h hok.1, hok⟩
  | cons sl rest ih =>
    intro h ssA csA hok hss
    have hrec := processRecordsHeap_frame N name interval
      (stream.read_records SyncMode.incremental sl (readInner h ssA) cf).1 0 h ssA csA hok hss
    simp only [processSlicesHeap]
    cases herr : (stream.read_records SyncMode.incremental sl (readInner h ssA) cf).2 with
    | some e => exact ⟨hrec.1, hrec.2.1⟩
    | none =>
      have hck := checkpointHeap_frame N
        (processRecordsHeap name interval
          (stream.read_records SyncMode.incremental sl (readInner h ssA) cf).1 0 h ssA csA).2.1
        csA name
        (processRecordsHeap name interval
          (stream.read_records SyncMode.incremental sl (readInner h ssA) cf).1 0 h ssA csA).2.2
        hrec.2.1.1 hrec.2.1.2.1
      have hokck := checkpointHeap_heapOK N
        (processRecordsHeap name interval
          (stream.read_records SyncMode.incremental sl (readInner h ssA) cf).1 0 h ssA csA).2.1
        csA name
        (processRecordsHeap name interval
          (stream.read_records SyncMode.incremental sl (readInner h ssA) cf).1 0 h ssA csA).2.2
        hrec.2.1 hrec.2.2
      have htail := ih
        (checkpointHeap
          (processRecordsHeap name interval
            (stream.read_records SyncMode.incremental sl (readInner h ssA) cf).1 0 h ssA csA).2.1
          csA name
          (processRecordsHeap name interval
            (stream.read_records SyncMode.incremental sl (readInner h ssA) cf).1 0 h ssA csA).2.2).1
        (processRecordsHeap name interval
          (stream.read_records SyncMode.incremental sl (readInner h ssA) cf).1 0 h ssA csA).2.2
        csA hokck hrec.2.2
      exact ⟨FrameGE_trans (FrameGE_trans hrec.1 hck) htail.1, htail.2⟩

theorem getStreamStateHeap_frame (N : Nat) (h : Heap) (csA : Nat) (name : String)
    (hok : HeapOK N h csA) :
    FrameGE N h (getStreamStateHeap h csA name).1
    ∧ HeapOK N (getStreamStateHeap h csA name).1 csA
    ∧ N ≤ (getStreamStateHeap h csA name).2 := by
  cases hfind : dget (readOuter h csA) name with
  | some ia =>
    simp only [getStreamStateHeap, hfind]
    exact ⟨FrameGE_refl N h hok.1, hok, hok.2.2 (name, ia) (dget_mem hfind)⟩
  | none =>
    simp only [getStreamStateHeap, hfind]
    refine ⟨frame_allocInner N h [] hok.1, ?_, by simp only [allocInner]; exact hok.1⟩
    exact heapOK_of_frame_outer_eq hok (frame_allocInner N h [] hok.1) rfl

theorem readIncrementalHeap_frame (N : Nat) (stream : StreamInst)
    (configured : ConfiguredStream) (h : Heap) (csA : Nat) (hok : HeapOK N h csA) :
    FrameGE N h (readIncrementalHeap stream configured h csA).2.1
    ∧ HeapOK N (readIncrementalHeap stream configured h csA).2.1 csA := by
  have hgs := getStreamStateHeap_frame N h csA configured.stream_name hok
  have hsl := processSlicesHeap_frame N stream configured.stream_name
    stream.state_checkpoint_interval configured.cursor_field
    (stream.stream_slices SyncMode.incremental configured.cursor_field
      (readInner (getStreamStateHeap h csA configured.stream_name).1
        (getStreamStateHeap h csA configured.stream_name).2)).1
    (getStreamStateHeap h csA configured.stream_name).1
    (getStreamStateHeap h csA configured.stream_name).2 csA hgs.2.1 hgs.2.2
  exact ⟨FrameGE_trans hgs.1 hsl.1, hsl.2⟩

theorem readStreamHeap_frame (N : Nat) (stream : StreamInst)
    (configured : ConfiguredStream) (h : Heap) (csA : Nat) (hok : HeapOK N h csA) :
    FrameGE N h (readStreamHeap stream configured h csA).2.1
    ∧ HeapOK N (readStreamHeap stream configured h csA).2.1 csA := by
  by_cases hinc : useIncremental stream configured = true
  · simp only [readStreamHeap, hinc, if_true]
    exact readIncrementalHeap_frame N stream configured h csA hok
  · rw [Bool.not_eq_true] at hinc
    simp only [readStreamHeap, hinc, Bool.false_eq_true, if_false]
    exact ⟨FrameGE_refl N h hok.1, hok⟩

theorem readStreamsHeap_frame (N : Nat) (instances : List (String × StreamInst)) :
    ∀ (catalog : List ConfiguredStream) (h : Heap) (csA : Nat),
      HeapOK N h csA →
      FrameGE N h (readStreamsHeap instances catalog h csA).2.1 := by
  intro catalog
  induction catalog with
  | nil => intro h csA hok; exact FrameGE_refl N h hok.1
  | cons c rest ih =>
    intro h csA hok
    simp only [readStreamsHeap]
    cases hfind : dget instances c.stream_name with
    | none => exact FrameGE_refl N h hok.1
    | some stream =>
      dsimp only
      have hrs := readStreamHeap_frame N stream c h csA hok
      cases herr : (readStreamHeap stream c h csA).2.2 with
      | some e =>
        dsimp only
        exact hrs.1
      | none =>
        dsimp only
        exact FrameGE_trans hrs.1 (ih _ csA hrs.2)

theorem deepcopy_frame (h : Heap) (a : Option Nat) :
    FrameGE h.next h (deepcopyOuter h a).1 ∧ HeapOK h.next (deepcopyOuter h a).1
      (deepcopyOuter h a).2 := by
  cases a with
  | none =>
    constructor
    · have hfr := frame_allocOuter h.next h [] le_rfl
      simpa [deepcopyOuter] using hfr
    · refine ⟨?_, ?_, ?_⟩
      · simp only [deepcopyOuter, allocOuter]
        omega
      · simp only [deepcopyOuter, allocOuter]
        omega
      · intro kv hkv
        simp only [deepcopyOuter, allocOuter, readOuter, dgetD] at hkv
        rw [dget_dset_self] at hkv
        simp at hkv
  | some a0 =>
    have hstep : ∀ (entries : List (String × Nat)) (acc : Heap × List (String × Nat)),
        FrameGE h.next h acc.1 → (∀ kv ∈ acc.2, h.next ≤ kv.2) →
        FrameGE h.next h (entries.foldl (copyFold h) acc).1
        ∧ ∀ kv ∈ (entries.foldl (copyFold h) acc).2, h.next ≤ kv.2 := by
      intro entries
      induction entries with
      | nil => intro acc hfr hent; exact ⟨hfr, hent⟩
      | cons e tail ih =>
        intro acc hfr hent
        simp only [List.foldl_cons]
        apply ih
        · exact FrameGE_trans hfr (frame_allocInner h.next acc.1 (readInner h e.2) hfr.1)
        · intro kv hkv
          simp only [copyFold] at hkv
          rcases List.mem_append.mp hkv with hold | hnew
          · exact hent kv hold
          · have : kv = (e.1, (allocInner acc.1 (readInner h e.2)).2) := by
              simpa using hnew
            rw [this]
            simp only [allocInner]
            exact hfr.1
    have hbase := hstep (readOuter h a0) (h, []) (FrameGE_refl h.next h le_rfl)
      (by intro kv hkv; simp at hkv)
    simp only [deepcopyOuter]
    constructor
    · exact FrameGE_trans hbase.1 (frame_allocOuter h.next _ _ hbase.1.1)
    · refine ⟨?_, ?_, ?_⟩
      · simp only [allocOuter]
        have := hbase.1.1
        omega
      · simp only [allocOuter]
        exact hbase.1.1
      · intro kv hkv
        simp only [allocOuter, readOuter, dgetD] at hkv
        rw [dget_dset_self] at hkv
        simp only [Option.getD_some] at hkv
        exact hbase.2 kv hkv

/-- Claim C10: `read` never mutates the caller-supplied seed state: it
deep-copies the seed before any processing, and every in-place write of
the run (checkpoint writes and `get_updated_state` writes) targets only
addresses allocated at or after the copy, so after `read` completes the
caller's dict object and every per-stream dict it references hold exactly
their original values. -/
theorem C10_read_preserves_caller_state (streams : List StreamInst)
    (catalog : List ConfiguredStream) (h : Heap) (a0 : Nat)
    (ha0 : a0 < h.next) (hwf : ∀ kv ∈ readOuter h a0, kv.2 < h.next) :
    readOuter (readHeap streams catalog h (some a0)).2 a0 = readOuter h a0
    ∧ ∀ kv ∈ readOuter h a0,
        readInner (readHeap streams catalog h (some a0)).2 kv.2 = readInner h kv.2 := by
  have hdc := deepcopy_frame h (some a0)
  have hrs := readStreamsHeap_frame h.next
    (streams.foldl (fun m s => dset m s.name s) []) catalog
    (deepcopyOuter h (some a0)).1 (deepcopyOuter h (some a0)).2 hdc.2
  have hfr : FrameGE h.next h (readHeap streams catalog h (some a0)).2 :=
    FrameGE_trans hdc.1 hrs
  constructor
  · simp only [readOuter, dgetD]
    rw [hfr.2.1 a0 ha0]
  · intro kv hkv
    simp only [readInner, dgetD]
    rw [hfr.2.2 kv.2 (hwf kv hkv)]

/-- Witness for C10 at a concrete input: a caller heap holding one seeded
stream entry is unchanged by a full incremental read. -/
theorem C10_witness :
    readOuter (readHeap [constStream "a" [[("ts", 7)]] (some 1)]
        [⟨"a", SyncMode.incremental, []⟩]
        ⟨[(0, [("z", 1)])], [(1, [("ts", 9)])], 2⟩ (some 0)).2 0
      = readOuter ⟨[(0, [("z", 1)])], [(1, [("ts", 9)])], 2⟩ 0
    ∧ ∀ kv ∈ readOuter ⟨[(0, [("z", 1)])], [(1, [("ts", 9)])], 2⟩ 0,
        readInner (readHeap [constStream "a" [[("ts", 7)]] (some 1)]
            [⟨"a", SyncMode.incremental, []⟩]
            ⟨[(0, [("z", 1)])], [(1, [("ts", 9)])], 2⟩ (some 0)).2 kv.2
          = readInner ⟨[(0, [("z", 1)])], [(1, [("ts", 9)])], 2⟩ kv.2 :=
  C10_read_preserves_caller_state [constStream "a" [[("ts", 7)]] (some 1)]
    [⟨"a", SyncMode.incremental, []⟩]
    ⟨[(0, [("z", 1)])], [(1, [("ts", 9)])], 2⟩ 0 (by decide) (by decide)

end Airbyte
